import Mathlib

/-!
Verification of the schema-based summarizer core (`src/app.py`, `src/utils.py`):
nested-path get/set over JSON-like trees, mandatory-field validation,
null pruning, regex text extractors, and date formatting.

Python values are modelled by the `JSON` inductive below; Python dicts are
insertion-ordered association lists, numbers are split into `int` and `float`
(floats modelled as rationals, exact for every literal this code parses).
Python functions that can raise are modelled as `Option`-returning functions
(`none` = an exception escapes).
-/

set_option autoImplicit false

namespace FIR

/-- A Python/JSON value as handled by the repository: `None`, booleans,
numbers, strings, dicts (insertion-ordered) and lists. -/
inductive JSON where
  | null
  | bool (b : Bool)
  | int (n : Int)
  | float (q : ℚ)
  | str (s : String)
  | obj (fields : List (String × JSON))
  | arr (elems : List JSON)
  deriving Repr

/-- `v is None` in Python. -/
def isNull : JSON → Bool
  | .null => true
  | _ => false

/-- Python truthiness `bool(v)` for the values in `JSON`: `None`, `False`,
`0`, `0.0`, `""`, `{}` and `[]` are falsy, everything else truthy. -/
def pyTruthy : JSON → Bool
  | .null => false
  | .bool b => b
  | .int n => !(n == 0)
  | .float q => !(q == 0)
  | .str s => !(s == "")
  | .obj fs => !fs.isEmpty
  | .arr xs => !xs.isEmpty

/-- Python `v == "null"` (only a string can equal a string). -/
def isNullLiteral : JSON → Bool
  | .str s => s == "null"
  | _ => false

/-- Python `v == ""`. -/
def isEmptyString : JSON → Bool
  | .str s => s == ""
  | _ => false

/-! ### Dotted paths

`path.split('.')` on Python strings: splitting on `'.'` always returns at
least one (possibly empty) segment. -/

/-- Python `str.split('.')` on the character list. -/
def splitDot : List Char → List (List Char)
  | [] => [[]]
  | c :: rest =>
    if c = '.' then [] :: splitDot rest
    else
      match splitDot rest with
      | s :: ss => (c :: s) :: ss
      | [] => [[c]]

/-- Dotted path → list of key segments, as in `path.split('.')`. -/
def splitKeys (path : String) : List String :=
  (splitDot path.data).map (fun cs => String.mk cs)

theorem splitDot_ne_nil (cs : List Char) : splitDot cs ≠ [] := by
  induction cs with
  | nil => simp [splitDot]
  | cons c rest ih =>
    simp only [splitDot]
    split
    · simp
    · cases h : splitDot rest with
      | nil => exact absurd h ih
      | cons s ss => simp

theorem splitKeys_ne_nil (path : String) : splitKeys path ≠ [] := by
  simpa [splitKeys] using splitDot_ne_nil path.data

/-! ### PathAccessor: `get_nested_value` / `set_nested_value` (src/app.py) -/

/-- First-match association-list lookup, i.e. `current.get(key)` /
`key in current` on a Python dict (keys are unique in a real dict, but
first-match is the faithful general reading). -/
def lookupF (fs : List (String × JSON)) (k : String) : Option JSON :=
  match fs with
  | [] => none
  | (k', v) :: rest => if k' = k then some v else lookupF rest k

/-- Python dict assignment `d[k] = v`: replaces in place if the key exists,
otherwise appends (insertion order). -/
def insertF (fs : List (String × JSON)) (k : String) (v : JSON) : List (String × JSON) :=
  match fs with
  | [] => [(k, v)]
  | (k', v') :: rest => if k' = k then (k, v) :: rest else (k', v') :: insertF rest k v

/-- The loop of `get_nested_value` (src/app.py:100-109): descend the key
list; a missing key yields `None` (`dict.get`), and reaching a non-dict
with keys left returns `None`. -/
def getKeys : JSON → List String → JSON
  | v, [] => v
  | .obj fs, k :: rest => getKeys ((lookupF fs k).getD .null) rest
  | _, _ :: _ => .null

/-- `get_nested_value(data, path)` (src/app.py:100-109). The absent
sentinel (Python `None`) coincides with `JSON.null`. -/
def get_nested_value (data : JSON) (path : String) : JSON :=
  getKeys data (splitKeys path)

/-- The loop of `set_nested_value` (src/app.py:111-119): walk
`keys[:-1]` creating `{}` for missing keys; `none` models the `TypeError`
that Python raises as soon as the walk (or the final assignment) meets an
existing non-dict value. The walk mutates nothing before such a raise, so
`none` loses no partial state. -/
def setKeys (fs : List (String × JSON)) : List String → JSON → Option (List (String × JSON))
  | [], _ => some fs
  | [k], v => some (insertF fs k v)
  | k :: r :: rest, v =>
    match lookupF fs k with
    | none => (setKeys [] (r :: rest) v).map (fun inner => insertF fs k (.obj inner))
    | some (.obj g) => (setKeys g (r :: rest) v).map (fun g' => insertF fs k (.obj g'))
    | some _ => none

/-- `set_nested_value(data, path, value)` (src/app.py:111-119); the root is
a dict (the function's `data: Dict` signature). -/
def set_nested_value (data : List (String × JSON)) (path : String) (v : JSON) :
    Option (List (String × JSON)) :=
  setKeys data (splitKeys path) v

/-- `true` iff the descent of `set_nested_value` along these keys meets an
existing non-dict value strictly before finishing, i.e. iff Python raises. -/
def trailBlocked (fs : List (String × JSON)) : List String → Bool
  | [] => false
  | [_] => false
  | k :: r :: rest =>
    match lookupF fs k with
    | none => false
    | some (.obj g) => trailBlocked g (r :: rest)
    | some _ => true

/-! ### Mandatory-field validation (src/app.py:35-43, 121-128) -/

/-- `MANDATORY_FIELDS` (src/app.py:35-43), in declaration order. -/
def MANDATORY_FIELDS : List (String × String) :=
  [("complainant.name", "Complainant Name"),
   ("complainant.address", "Complainant Address"),
   ("complainant.phone", "Phone Number"),
   ("incident.location.address", "Incident Location"),
   ("incident.datetime.occurred_on", "Incident Date"),
   ("offense_details.type", "Offense Type"),
   ("offense_details.description", "Offense Description")]

/-- The test `not value or value == "null" or value == ""` of
`validate_mandatory_fields` (src/app.py:126). -/
def missingTest (v : JSON) : Bool :=
  !pyTruthy v || isNullLiteral v || isEmptyString v

/-- `validate_mandatory_fields(data)` (src/app.py:121-128): the missing
entries of `MANDATORY_FIELDS`, in declaration order (Python dicts preserve
insertion order). -/
def validate_mandatory_fields (data : JSON) : List (String × String) :=
  MANDATORY_FIELDS.filter (fun pl => missingTest (get_nested_value data pl.1))

/-! ### Reconciler: the missing-fields form submit loop (src/app.py:233-240)

`user_inputs` values are strings (`st.text_input` / `st.date_input(...)
.strftime(...)` / `st.selectbox`), so `if value:` is `value != ""`. -/

/-- The submit loop (src/app.py:235-237): for each correction with a
non-empty string value, `set_nested_value` it into the instance; `none`
when one of those calls raises. -/
def applyCorrections (data : List (String × JSON)) :
    List (String × String) → Option (List (String × JSON))
  | [] => some data
  | (p, v) :: rest =>
    if v = "" then applyCorrections data rest
    else
      match setKeys data (splitKeys p) (.str v) with
      | some d' => applyCorrections d' rest
      | none => none

/-! ### `DataFormatter.remove_nulls` (src/utils.py:169-181) -/

/-- Dict filter of `remove_nulls`:
`v is not None and v != [] and v != ""` (note: empty dicts are kept, and
the original value is tested, not its pruned form). -/
def keepInObj : JSON → Bool
  | .null => false
  | .str s => !(s == "")
  | .arr xs => !xs.isEmpty
  | _ => true

mutual

/-- `DataFormatter.remove_nulls` (src/utils.py:170-181): recursively drops
dict entries whose value is `None`, `[]` or `""` (testing the value before
recursing into it) and list items that are `None`; scalars are returned
unchanged (including a top-level `None`). -/
def remove_nulls : JSON → JSON
  | .null => .null
  | .bool b => .bool b
  | .int n => .int n
  | .float q => .float q
  | .str s => .str s
  | .obj fs => .obj (removeNullsFields fs)
  | .arr xs => .arr (removeNullsElems xs)

/-- The dict comprehension inside `remove_nulls`. -/
def removeNullsFields : List (String × JSON) → List (String × JSON)
  | [] => []
  | (k, v) :: rest =>
    if keepInObj v then (k, remove_nulls v) :: removeNullsFields rest
    else removeNullsFields rest

/-- The list comprehension inside `remove_nulls` (drops only `None`). -/
def removeNullsElems : List JSON → List JSON
  | [] => []
  | v :: rest =>
    if isNull v then removeNullsElems rest
    else remove_nulls v :: removeNullsElems rest

end

mutual

/-- No member of any object or array in `t`, at any depth, is `None`. -/
def noNullMember : JSON → Bool
  | .obj fs => noNullMemberF fs
  | .arr xs => noNullMemberE xs
  | _ => true

def noNullMemberF : List (String × JSON) → Bool
  | [] => true
  | (_, v) :: rest => !isNull v && noNullMember v && noNullMemberF rest

def noNullMemberE : List JSON → Bool
  | [] => true
  | v :: rest => !isNull v && noNullMember v && noNullMemberE rest

end

mutual

/-- Some object or array in `t`, at any depth (including `t` itself),
is empty. -/
def hasEmptyContainer : JSON → Bool
  | .obj fs => fs.isEmpty || hasEmptyContainerF fs
  | .arr xs => xs.isEmpty || hasEmptyContainerE xs
  | _ => false

def hasEmptyContainerF : List (String × JSON) → Bool
  | [] => false
  | (_, v) :: rest => hasEmptyContainer v || hasEmptyContainerF rest

def hasEmptyContainerE : List JSON → Bool
  | [] => false
  | v :: rest => hasEmptyContainer v || hasEmptyContainerE rest

end

/-! ## Lemmas about lookup / insert / set -/

theorem lookupF_insertF_self (fs : List (String × JSON)) (k : String) (v : JSON) :
    lookupF (insertF fs k v) k = some v := by
  induction fs with
  | nil => simp [insertF, lookupF]
  | cons kv rest ih =>
    obtain ⟨k', v'⟩ := kv
    by_cases h : k' = k <;> simp [insertF, lookupF, h, ih]

theorem lookupF_insertF_ne (fs : List (String × JSON)) (k q : String) (v : JSON)
    (h : q ≠ k) : lookupF (insertF fs k v) q = lookupF fs q := by
  have hk : k ≠ q := Ne.symm h
  induction fs with
  | nil => simp [insertF, lookupF, hk]
  | cons kv rest ih =>
    obtain ⟨k', v'⟩ := kv
    by_cases h1 : k' = k
    · subst h1
      simp [insertF, lookupF, hk]
    · by_cases h2 : k' = q <;> simp [insertF, lookupF, h1, h2, ih, h]

theorem trailBlocked_nil : ∀ ks : List String, trailBlocked [] ks = false
  | [] => rfl
  | [_] => rfl
  | _ :: _ :: _ => by simp [trailBlocked, lookupF]

/-- `set_nested_value` raises exactly when the descent meets an existing
non-dict value. -/
theorem setKeys_none_iff : ∀ (ks : List String) (fs : List (String × JSON)) (v : JSON),
    setKeys fs ks v = none ↔ trailBlocked fs ks = true
  | [], fs, v => by simp [setKeys, trailBlocked]
  | [k], fs, v => by simp [setKeys, trailBlocked]
  | k :: r :: rest, fs, v => by
    simp only [setKeys, trailBlocked]
    cases h : lookupF fs k with
    | none =>
      have hne : setKeys [] (r :: rest) v ≠ none := by
        rw [Ne, setKeys_none_iff (r :: rest) [] v]
        simp [trailBlocked_nil]
      rcases Option.ne_none_iff_exists'.mp hne with ⟨inner, hinner⟩
      simp [hinner]
    | some w =>
      cases w with
      | obj g =>
        cases hg : setKeys g (r :: rest) v with
        | none => simpa [hg] using (setKeys_none_iff (r :: rest) g v).mp hg
        | some g' =>
          have : ¬ trailBlocked g (r :: rest) = true := by
            rw [← setKeys_none_iff (r :: rest) g v]
            simp [hg]
          simp [hg, this]
      | null => simp
      | bool b => simp
      | int n => simp
      | float q => simp
      | str s => simp
      | arr xs => simp

/-- After a successful `setKeys`, reading back the same key list yields the
written value. -/
theorem getKeys_setKeys_self : ∀ (ks : List String) (fs fs' : List (String × JSON)) (v : JSON),
    ks ≠ [] → setKeys fs ks v = some fs' → getKeys (.obj fs') ks = v
  | [], _, _, _, h, _ => absurd rfl h
  | [k], fs, fs', v, _, hset => by
    simp only [setKeys, Option.some.injEq] at hset
    subst hset
    simp [getKeys, lookupF_insertF_self]
  | k :: r :: rest, fs, fs', v, _, hset => by
    simp only [setKeys] at hset
    cases h : lookupF fs k with
    | none =>
      rw [h] at hset
      rcases Option.map_eq_some'.mp hset with ⟨inner, hinner, hfs'⟩
      subst hfs'
      have := getKeys_setKeys_self (r :: rest) [] inner v (by simp) hinner
      simpa [getKeys, lookupF_insertF_self] using this
    | some w =>
      rw [h] at hset
      cases w with
      | obj g =>
        rcases Option.map_eq_some'.mp hset with ⟨g', hg', hfs'⟩
        subst hfs'
        have := getKeys_setKeys_self (r :: rest) g g' v (by simp) hg'
        simpa [getKeys, lookupF_insertF_self] using this
      | null => simp at hset
      | bool b => simp at hset
      | int n => simp at hset
      | float q => simp at hset
      | str s => simp at hset
      | arr xs => simp at hset

/-- `pfxB a b = true` iff segment list `a` is a (not necessarily strict)
prefix of segment list `b`. Two dotted paths interfere exactly when one's
segment list is a prefix of the other's. -/
def pfxB : List String → List String → Bool
  | [], _ => true
  | _ :: _, [] => false
  | a :: as, b :: bs => a == b && pfxB as bs

@[simp] theorem getKeys_nil (v : JSON) : getKeys v [] = v := by
  cases v <;> rfl

@[simp] theorem getKeys_null (ks : List String) : getKeys .null ks = .null := by
  cases ks <;> rfl

@[simp] theorem getKeys_obj_cons (fs : List (String × JSON)) (k : String) (rest : List String) :
    getKeys (.obj fs) (k :: rest) = getKeys ((lookupF fs k).getD .null) rest := rfl

/-- Reading any key list that does not interfere with a freshly created
chain `setKeys [] ks v` yields `None`. -/
theorem getKeys_freshChain : ∀ (ks : List String) (inner : List (String × JSON)) (v : JSON)
    (qs : List String), setKeys [] ks v = some inner →
    pfxB qs ks = false → pfxB ks qs = false → getKeys (.obj inner) qs = .null
  | _, _, _, [], _, hq, _ => by simp [pfxB] at hq
  | [], _, _, _ :: _, _, _, hk => by simp [pfxB] at hk
  | [k], inner, v, q :: qs', hset, hq, hk => by
    simp only [setKeys, Option.some.injEq] at hset
    subst hset
    by_cases hqk : q = k
    · subst hqk
      simp [pfxB] at hk
    · have hkq : k ≠ q := Ne.symm hqk
      simp [insertF, lookupF, hkq]
  | k :: r :: rest, inner, v, q :: qs', hset, hq, hk => by
    simp only [setKeys] at hset
    rw [show lookupF [] k = none from rfl] at hset
    rcases Option.map_eq_some'.mp hset with ⟨inner', hinner', hfs⟩
    subst hfs
    by_cases hqk : q = k
    · subst hqk
      simp only [pfxB, beq_self_eq_true, Bool.true_and] at hq hk
      have := getKeys_freshChain (r :: rest) inner' v qs' hinner' hq hk
      simpa [insertF, lookupF] using this
    · have hkq : k ≠ q := Ne.symm hqk
      simp [insertF, lookupF, hkq]

/-- Frame rule: a successful `setKeys` along `ks` leaves every key list
that does not interfere with `ks` (neither is a prefix of the other)
reading the same value as before. -/
theorem getKeys_setKeys_frame : ∀ (ks : List String) (fs fs' : List (String × JSON)) (v : JSON)
    (qs : List String), setKeys fs ks v = some fs' →
    pfxB qs ks = false → pfxB ks qs = false → getKeys (.obj fs') qs = getKeys (.obj fs) qs
  | _, _, _, _, [], _, hq, _ => by simp [pfxB] at hq
  | [], fs, fs', v, _ :: _, hset, _, _ => by
    simp only [setKeys, Option.some.injEq] at hset
    subst hset
    rfl
  | [k], fs, fs', v, q :: qs', hset, hq, hk => by
    simp only [setKeys, Option.some.injEq] at hset
    subst hset
    by_cases hqk : q = k
    · subst hqk
      simp [pfxB] at hk
    · simp [lookupF_insertF_ne fs k q v hqk]
  | k :: r :: rest, fs, fs', v, q :: qs', hset, hq, hk => by
    simp only [setKeys] at hset
    cases h : lookupF fs k with
    | none =>
      rw [h] at hset
      rcases Option.map_eq_some'.mp hset with ⟨inner, hinner, hfs⟩
      subst hfs
      by_cases hqk : q = k
      · subst hqk
        simp only [pfxB, beq_self_eq_true, Bool.true_and] at hq hk
        have hfresh := getKeys_freshChain (r :: rest) inner v qs' hinner hq hk
        simp [lookupF_insertF_self, h, hfresh]
      · simp [lookupF_insertF_ne fs k q (.obj inner) hqk]
    | some w =>
      rw [h] at hset
      cases w with
      | obj g =>
        rcases Option.map_eq_some'.mp hset with ⟨g', hg', hfs⟩
        subst hfs
        by_cases hqk : q = k
        · subst hqk
          simp only [pfxB, beq_self_eq_true, Bool.true_and] at hq hk
          have := getKeys_setKeys_frame (r :: rest) g g' v qs' hg' hq hk
          simpa [lookupF_insertF_self, h] using this
        · simp [lookupF_insertF_ne fs k q (.obj g') hqk]
      | null => simp at hset
      | bool b => simp at hset
      | int n => simp at hset
      | float q' => simp at hset
      | str s => simp at hset
      | arr xs => simp at hset

@[simp] theorem trailBlocked_cons2 (fs : List (String × JSON)) (k r : String)
    (rest : List String) :
    trailBlocked fs (k :: r :: rest) =
      (match lookupF fs k with
       | none => false
       | some (.obj g) => trailBlocked g (r :: rest)
       | some _ => true) := rfl

/-- A freshly created chain blocks no key list that `ks` is not a prefix
of. -/
theorem trailBlocked_freshChain : ∀ (ks : List String) (inner : List (String × JSON)) (v : JSON)
    (qs : List String), setKeys [] ks v = some inner →
    pfxB ks qs = false → trailBlocked inner qs = false
  | [], inner, v, qs, hset, hk => by simp [pfxB] at hk
  | [k], inner, v, qs, hset, hk => by
    simp only [setKeys, Option.some.injEq] at hset
    subst hset
    match qs with
    | [] => rfl
    | [_] => rfl
    | q :: q2 :: qrest =>
      by_cases hqk : q = k
      · subst hqk
        simp [pfxB] at hk
      · have hkq : k ≠ q := Ne.symm hqk
        simp [insertF, lookupF, hkq]
  | k :: r :: rest, inner, v, qs, hset, hk => by
    simp only [setKeys] at hset
    rw [show lookupF [] k = none from rfl] at hset
    rcases Option.map_eq_some'.mp hset with ⟨inner', hinner', hfs⟩
    subst hfs
    match qs with
    | [] => rfl
    | [_] => rfl
    | q :: q2 :: qrest =>
      by_cases hqk : q = k
      · subst hqk
        simp only [pfxB, beq_self_eq_true, Bool.true_and] at hk
        have := trailBlocked_freshChain (r :: rest) inner' v (q2 :: qrest) hinner' hk
        simpa [insertF, lookupF] using this
      · have hkq : k ≠ q := Ne.symm hqk
        simp [insertF, lookupF, hkq]

/-- A successful `setKeys` along `ks` keeps every trail clear that was
clear before, provided `ks` is not a prefix of it. -/
theorem trailBlocked_setKeys : ∀ (ks : List String) (fs fs' : List (String × JSON)) (v : JSON)
    (qs : List String), setKeys fs ks v = some fs' → pfxB ks qs = false →
    trailBlocked fs qs = false → trailBlocked fs' qs = false
  | [], fs, fs', v, qs, hset, hk, hq => by simp [pfxB] at hk
  | [k], fs, fs', v, qs, hset, hk, hq => by
    simp only [setKeys, Option.some.injEq] at hset
    subst hset
    match qs with
    | [] => rfl
    | [_] => rfl
    | q :: q2 :: qrest =>
      by_cases hqk : q = k
      · subst hqk
        simp [pfxB] at hk
      · simpa [lookupF_insertF_ne fs k q v hqk] using hq
  | k :: r :: rest, fs, fs', v, qs, hset, hk, hq => by
    simp only [setKeys] at hset
    cases h : lookupF fs k with
    | none =>
      rw [h] at hset
      rcases Option.map_eq_some'.mp hset with ⟨inner, hinner, hfs⟩
      subst hfs
      match qs with
      | [] => rfl
      | [_] => rfl
      | q :: q2 :: qrest =>
        by_cases hqk : q = k
        · subst hqk
          simp only [pfxB, beq_self_eq_true, Bool.true_and] at hk
          have := trailBlocked_freshChain (r :: rest) inner v (q2 :: qrest) hinner hk
          simpa [lookupF_insertF_self] using this
        · simpa [lookupF_insertF_ne fs k q (.obj inner) hqk] using hq
    | some w =>
      rw [h] at hset
      cases w with
      | obj g =>
        rcases Option.map_eq_some'.mp hset with ⟨g', hg', hfs⟩
        subst hfs
        match qs with
        | [] => rfl
        | [_] => rfl
        | q :: q2 :: qrest =>
          by_cases hqk : q = k
          · subst hqk
            simp only [pfxB, beq_self_eq_true, Bool.true_and] at hk
            rw [trailBlocked_cons2, h] at hq
            have := trailBlocked_setKeys (r :: rest) g g' v (q2 :: qrest) hg' hk hq
            simpa [lookupF_insertF_self] using this
          · simpa [lookupF_insertF_ne fs k q (.obj g') hqk] using hq
      | null => simp at hset
      | bool b => simp at hset
      | int n => simp at hset
      | float q' => simp at hset
      | str s => simp at hset
      | arr xs => simp at hset

/-! ## Claims about validation and path access -/

theorem missingTest_false_iff (v : JSON) :
    missingTest v = false ↔ (pyTruthy v = true ∧ isNullLiteral v = false) := by
  cases v <;> simp [missingTest, pyTruthy, isNullLiteral, isEmptyString]
  tauto

/-- A schema instance whose seven mandatory paths all hold the integer `0`:
every mandatory value is present and is none of `None`, `""`, `"null"`,
yet Python's `not value` treats `0` as missing. -/
def allZeroInstance : JSON :=
  .obj [("complainant", .obj [("name", .int 0), ("address", .int 0), ("phone", .int 0)]),
        ("incident", .obj [("location", .obj [("address", .int 0)]),
                           ("datetime", .obj [("occurred_on", .int 0)])]),
        ("offense_details", .obj [("type", .int 0), ("description", .int 0)])]

/-- C1 counterexample: on `allZeroInstance` every mandatory path resolves
(via `get_nested_value`) to a value that is not the absent sentinel, not
null, not the empty string and not the literal string "null", yet
`validate_mandatory_fields` does not return the empty result — so the
claimed "exactly when" equivalence fails. -/
theorem missing_fields_spec_cex :
    (∀ pl ∈ MANDATORY_FIELDS,
        isNull (get_nested_value allZeroInstance pl.1) = false ∧
        isEmptyString (get_nested_value allZeroInstance pl.1) = false ∧
        isNullLiteral (get_nested_value allZeroInstance pl.1) = false) ∧
    validate_mandatory_fields allZeroInstance ≠ [] := by
  constructor
  · decide
  · intro h
    have : validate_mandatory_fields allZeroInstance = MANDATORY_FIELDS := by decide
    rw [this] at h
    exact absurd h (by decide)

/-- C1 (amended): `validate_mandatory_fields` returns the empty result
exactly when every mandatory path resolves to a Python-truthy value that
is not the literal string "null" (so `0`, `False`, `0.0`, `{}` and `[]`
also count as missing); the returned entries are a sublist of
`MANDATORY_FIELDS`, hence preserve its declared order. -/
theorem missing_fields_truthy_iff (data : JSON) :
    (validate_mandatory_fields data = [] ↔
      ∀ pl ∈ MANDATORY_FIELDS, pyTruthy (get_nested_value data pl.1) = true ∧
        isNullLiteral (get_nested_value data pl.1) = false) ∧
    (validate_mandatory_fields data).Sublist MANDATORY_FIELDS := by
  constructor
  · simp only [validate_mandatory_fields, List.filter_eq_nil_iff, Bool.not_eq_true,
      missingTest_false_iff]
  · exact List.filter_sublist _

/-- C2 counterexample: on the tree `{"a": 5}` with path `"a.b"`,
`set_nested_value` raises (`none`), so the set-then-get round trip fails
for this tree, path и value. -/
theorem set_get_roundtrip_cex :
    ¬ ∃ t', set_nested_value [("a", .int 5)] "a.b" (.str "x") = some t' ∧
        get_nested_value (.obj t') "a.b" = .str "x" := by
  rintro ⟨t', h, -⟩
  have h0 : set_nested_value [("a", .int 5)] "a.b" (.str "x") = none := rfl
  rw [h0] at h
  exact Option.noConfusion h

/-- C2 (amended): whenever the descent of the path meets no existing
non-dict value (in particular on an initially empty tree),
`set_nested_value` succeeds and `get_nested_value` of the same path
returns exactly the written value. -/
theorem set_get_roundtrip (fs : List (String × JSON)) (path : String) (v : JSON)
    (h : trailBlocked fs (splitKeys path) = false) :
    ∃ fs', set_nested_value fs path v = some fs' ∧
      get_nested_value (.obj fs') path = v := by
  have hne : setKeys fs (splitKeys path) v ≠ none := by
    rw [Ne, setKeys_none_iff]
    simp [h]
  rcases Option.ne_none_iff_exists'.mp hne with ⟨fs', hfs'⟩
  exact ⟨fs', hfs', getKeys_setKeys_self _ fs fs' v (splitKeys_ne_nil path) hfs'⟩

/-- Witness for the amended C2 round trip at the empty tree. -/
theorem set_get_roundtrip_witness :
    trailBlocked [] (splitKeys "a.b") = false ∧
    ∃ fs', set_nested_value [] "a.b" (.int 7) = some fs' ∧
      get_nested_value (.obj fs') "a.b" = .int 7 :=
  ⟨rfl, set_get_roundtrip [] "a.b" (.int 7) rfl⟩

/-- C9: `set_nested_value` is not total: setting `"a.b"` when `tree["a"]`
holds the integer `5` raises (`none`), and in general `setKeys` raises
exactly when an intermediate segment's key already holds a non-dict
value (`trailBlocked`). -/
theorem set_nested_raises :
    set_nested_value [("a", .int 5)] "a.b" (.str "x") = none ∧
    (∀ (fs : List (String × JSON)) (ks : List String) (v : JSON),
      setKeys fs ks v = none ↔ trailBlocked fs ks = true) :=
  ⟨rfl, fun fs ks v => setKeys_none_iff ks fs v⟩

/-! ## Claims about the reconciliation loop -/

/-- The segment lists of the corrections that the submit loop actually
applies (those with a non-empty value). -/
def nonEmptyKeyPaths (cs : List (String × String)) : List (List String) :=
  (cs.filter (fun c => !(c.2 == ""))).map (fun c => splitKeys c.1)

theorem mem_nonEmptyKeyPaths {cs : List (String × String)} {c : String × String}
    (hc : c ∈ cs) (hne : c.2 ≠ "") : splitKeys c.1 ∈ nonEmptyKeyPaths cs := by
  refine List.mem_map.mpr ⟨c, List.mem_filter.mpr ⟨hc, ?_⟩, rfl⟩
  simpa using hne

/-- C7 counterexample: a single correction with the non-empty value `"x"`
at path `"a.b"` is not set into `{"a": 5}` — the loop raises instead
(`set_nested_value` hits the non-dict intermediate). -/
theorem apply_corrections_cex :
    applyCorrections [("a", .int 5)] [("a.b", "x")] = none ∧ ("x" : String) ≠ "" :=
  ⟨rfl, by decide⟩

/-- C7 (amended): provided no applied correction path meets an existing
non-dict intermediate and no two applied correction paths interfere (none
a segment prefix of another), the submit loop succeeds, sets exactly the
corrections with non-empty value (reading each such path afterwards gives
the corrected value), skips empty-valued corrections as no-ops, and every
key list that interferes with no applied correction path — in particular
any existing non-corrected field — keeps its previous value. -/
theorem apply_corrections_spec :
    ∀ (cs : List (String × String)) (fs : List (String × JSON)),
    (∀ c ∈ cs, c.2 ≠ "" → trailBlocked fs (splitKeys c.1) = false) →
    List.Pairwise (fun a b => pfxB a b = false ∧ pfxB b a = false) (nonEmptyKeyPaths cs) →
    ∃ fs', applyCorrections fs cs = some fs' ∧
      (∀ c ∈ cs, c.2 ≠ "" → get_nested_value (.obj fs') c.1 = .str c.2) ∧
      (∀ qs : List String,
        (∀ c ∈ cs, c.2 ≠ "" →
          pfxB qs (splitKeys c.1) = false ∧ pfxB (splitKeys c.1) qs = false) →
        getKeys (.obj fs') qs = getKeys (.obj fs) qs)
  | [], fs, _, _ => ⟨fs, rfl, by simp, fun qs _ => rfl⟩
  | (p, v) :: rest, fs, hcl, hpw => by
    by_cases hv : v = ""
    · subst hv
      have hpw' : List.Pairwise (fun a b => pfxB a b = false ∧ pfxB b a = false)
          (nonEmptyKeyPaths rest) := by
        simpa [nonEmptyKeyPaths] using hpw
      obtain ⟨fs', happ, hval, hframe⟩ :=
        apply_corrections_spec rest fs
          (fun c hc hne => hcl c (List.mem_cons_of_mem _ hc) hne) hpw'
      refine ⟨fs', by simpa [applyCorrections] using happ, ?_, ?_⟩
      · intro c hc hne
        rcases List.mem_cons.mp hc with hc | hc
        · subst hc
          exact absurd rfl hne
        · exact hval c hc hne
      · intro qs hqs
        exact hframe qs (fun c hc hne => hqs c (List.mem_cons_of_mem _ hc) hne)
    · have hbl := hcl (p, v) (List.mem_cons_self _ _) hv
      have hne : setKeys fs (splitKeys p) (.str v) ≠ none := by
        rw [Ne, setKeys_none_iff]
        simp [hbl]
      rcases Option.ne_none_iff_exists'.mp hne with ⟨fs1, hfs1⟩
      have hpaths : nonEmptyKeyPaths ((p, v) :: rest) =
          splitKeys p :: nonEmptyKeyPaths rest := by
        simp [nonEmptyKeyPaths, hv]
      rw [hpaths, List.pairwise_cons] at hpw
      obtain ⟨hrel, hpw'⟩ := hpw
      have hcl1 : ∀ c ∈ rest, c.2 ≠ "" → trailBlocked fs1 (splitKeys c.1) = false := by
        intro c hc hcne
        have hr := hrel (splitKeys c.1) (mem_nonEmptyKeyPaths hc hcne)
        exact trailBlocked_setKeys (splitKeys p) fs fs1 (.str v) (splitKeys c.1)
          hfs1 hr.1 (hcl c (List.mem_cons_of_mem _ hc) hcne)
      obtain ⟨fs', happ, hval, hframe⟩ := apply_corrections_spec rest fs1 hcl1 hpw'
      refine ⟨fs', ?_, ?_, ?_⟩
      · simpa [applyCorrections, hv, hfs1] using happ
      · intro c hc hcne
        rcases List.mem_cons.mp hc with hc | hc
        · subst hc
          have hframe_p : getKeys (.obj fs') (splitKeys p) =
              getKeys (.obj fs1) (splitKeys p) := by
            refine hframe (splitKeys p) (fun c' hc' hcne' => ?_)
            have hr := hrel (splitKeys c'.1) (mem_nonEmptyKeyPaths hc' hcne')
            exact ⟨hr.1, hr.2⟩
          show getKeys (.obj fs') (splitKeys p) = .str v
          rw [hframe_p]
          exact getKeys_setKeys_self _ fs fs1 (.str v) (splitKeys_ne_nil p) hfs1
        · exact hval c hc hcne
      · intro qs hqs
        have h1 := hframe qs (fun c hc hcne => hqs c (List.mem_cons_of_mem _ hc) hcne)
        have h2 := getKeys_setKeys_frame (splitKeys p) fs fs1 (.str v) qs hfs1
          (hqs (p, v) (List.mem_cons_self _ _) hv).1 (hqs (p, v) (List.mem_cons_self _ _) hv).2
        rw [h1, h2]

/-- Witness for the amended C7 at a concrete instance: one non-empty and
one empty correction; the non-empty one lands, the empty one is a no-op,
and the untouched path `"complainant.address"` keeps its value. -/
theorem apply_corrections_spec_witness :
    ∃ fs', applyCorrections [("complainant", .obj [("name", .null), ("address", .str "MG Road")])]
        [("complainant.name", "John"), ("complainant.phone", "")] = some fs' ∧
      (∀ c ∈ ([("complainant.name", "John"), ("complainant.phone", "")] :
          List (String × String)), c.2 ≠ "" →
        get_nested_value (.obj fs') c.1 = .str c.2) ∧
      (∀ qs : List String,
        (∀ c ∈ ([("complainant.name", "John"), ("complainant.phone", "")] :
            List (String × String)), c.2 ≠ "" →
          pfxB qs (splitKeys c.1) = false ∧ pfxB (splitKeys c.1) qs = false) →
        getKeys (.obj fs') qs =
          getKeys (.obj [("complainant", .obj [("name", .null), ("address", .str "MG Road")])]) qs) :=
  apply_corrections_spec [("complainant.name", "John"), ("complainant.phone", "")]
    [("complainant", .obj [("name", .null), ("address", .str "MG Road")])]
    (by decide) (by decide)

/-! ## Claims about `remove_nulls` (pruning) -/

mutual

/-- Trees on which `remove_nulls` is the identity: no dict entry holds
`None`, `""` or `[]`, and no list item is `None`, hereditarily. -/
def goodT : JSON → Bool
  | .obj fs => goodF fs
  | .arr xs => goodE xs
  | _ => true

def goodF : List (String × JSON) → Bool
  | [] => true
  | (_, v) :: rest => keepInObj v && goodT v && goodF rest

def goodE : List JSON → Bool
  | [] => true
  | v :: rest => !isNull v && goodT v && goodE rest

end

theorem isNull_remove_nulls (v : JSON) : isNull (remove_nulls v) = isNull v := by
  cases v <;> rfl

/-- Pruning keeps the `keepInObj` test of a kept, null-member-free value. -/
theorem keepInObj_remove_nulls (v : JSON) (hnn : noNullMember v = true)
    (hk : keepInObj v = true) : keepInObj (remove_nulls v) = true := by
  cases v with
  | null => simp [keepInObj] at hk
  | bool b => rfl
  | int n => rfl
  | float q => rfl
  | str s => simpa [remove_nulls, keepInObj] using hk
  | obj fs => rfl
  | arr xs =>
    cases xs with
    | nil => simp [keepInObj] at hk
    | cons x rest =>
      have hx : isNull x = false := by
        simp only [noNullMember, noNullMemberE, Bool.and_eq_true, Bool.not_eq_true'] at hnn
        exact hnn.1.1
      simp [remove_nulls, removeNullsElems, keepInObj, hx]

mutual

/-- After pruning, no member of any object or array is `None`. -/
theorem noNullMember_remove_nulls : ∀ t : JSON, noNullMember (remove_nulls t) = true
  | .null => rfl
  | .bool _ => rfl
  | .int _ => rfl
  | .float _ => rfl
  | .str _ => rfl
  | .obj fs => noNullMemberF_removeNullsFields fs
  | .arr xs => noNullMemberE_removeNullsElems xs

theorem noNullMemberF_removeNullsFields :
    ∀ fs : List (String × JSON), noNullMemberF (removeNullsFields fs) = true
  | [] => rfl
  | (k, v) :: rest => by
    by_cases hk : keepInObj v = true
    · have hnull : isNull v = false := by
        cases v <;> simp_all [keepInObj, isNull]
      simp [removeNullsFields, hk, noNullMemberF, isNull_remove_nulls, hnull,
        noNullMember_remove_nulls v, noNullMemberF_removeNullsFields rest]
    · simp [removeNullsFields, hk, noNullMemberF_removeNullsFields rest]

theorem noNullMemberE_removeNullsElems :
    ∀ xs : List JSON, noNullMemberE (removeNullsElems xs) = true
  | [] => rfl
  | v :: rest => by
    by_cases hn : isNull v = true
    · simp [removeNullsElems, hn, noNullMemberE_removeNullsElems rest]
    · simp only [Bool.not_eq_true] at hn
      simp [removeNullsElems, hn, noNullMemberE, isNull_remove_nulls,
        noNullMember_remove_nulls v, noNullMemberE_removeNullsElems rest]

end

mutual

/-- `remove_nulls` is the identity on `good` trees. -/
theorem remove_nulls_of_good : ∀ t : JSON, goodT t = true → remove_nulls t = t
  | .null, _ => rfl
  | .bool _, _ => rfl
  | .int _, _ => rfl
  | .float _, _ => rfl
  | .str _, _ => rfl
  | .obj fs, h => by
    rw [remove_nulls, removeNullsFields_of_good fs (by simpa [goodT] using h)]
  | .arr xs, h => by
    rw [remove_nulls, removeNullsElems_of_good xs (by simpa [goodT] using h)]

theorem removeNullsFields_of_good :
    ∀ fs : List (String × JSON), goodF fs = true → removeNullsFields fs = fs
  | [], _ => rfl
  | (k, v) :: rest, h => by
    simp only [goodF, Bool.and_eq_true] at h
    rw [removeNullsFields, if_pos h.1.1, remove_nulls_of_good v h.1.2,
      removeNullsFields_of_good rest h.2]

theorem removeNullsElems_of_good :
    ∀ xs : List JSON, goodE xs = true → removeNullsElems xs = xs
  | [], _ => rfl
  | v :: rest, h => by
    simp only [goodE, Bool.and_eq_true, Bool.not_eq_true'] at h
    rw [removeNullsElems, if_neg (by simp [h.1.1]), remove_nulls_of_good v h.1.2,
      removeNullsElems_of_good rest h.2]

end

mutual

/-- Pruning a tree without null members yields a `good` tree. -/
theorem good_remove_nulls : ∀ t : JSON, noNullMember t = true → goodT (remove_nulls t) = true
  | .null, _ => rfl
  | .bool _, _ => rfl
  | .int _, _ => rfl
  | .float _, _ => rfl
  | .str _, _ => rfl
  | .obj fs, h => goodF_removeNullsFields fs (by simpa [noNullMember] using h)
  | .arr xs, h => goodE_removeNullsElems xs (by simpa [noNullMember] using h)

theorem goodF_removeNullsFields :
    ∀ fs : List (String × JSON), noNullMemberF fs = true → goodF (removeNullsFields fs) = true
  | [], _ => rfl
  | (k, v) :: rest, h => by
    simp only [noNullMemberF, Bool.and_eq_true] at h
    by_cases hk : keepInObj v = true
    · simp [removeNullsFields, hk, goodF, keepInObj_remove_nulls v h.1.2 hk,
        good_remove_nulls v h.1.2, goodF_removeNullsFields rest h.2]
    · simp [removeNullsFields, hk, goodF_removeNullsFields rest h.2]

theorem goodE_removeNullsElems :
    ∀ xs : List JSON, noNullMemberE xs = true → goodE (removeNullsElems xs) = true
  | [], _ => rfl
  | v :: rest, h => by
    simp only [noNullMemberE, Bool.and_eq_true, Bool.not_eq_true'] at h
    simp [removeNullsElems, h.1.1, goodE, isNull_remove_nulls,
      good_remove_nulls v h.1.2, goodE_removeNullsElems rest h.2]

end

/-- C3 counterexample: pruning `{"a": {"b": None}}` keeps the key `"a"`
(its value is tested before recursion) and leaves the empty dict behind —
the result contains an empty container. -/
theorem prune_spec_cex :
    remove_nulls (.obj [("a", .obj [("b", .null)])]) = .obj [("a", .obj [])] ∧
    hasEmptyContainer (remove_nulls (.obj [("a", .obj [("b", .null)])])) = true :=
  ⟨rfl, rfl⟩

/-- C3 (amended): `remove_nulls` returns a copy in which no object or
array member at any depth is null; dict entries are filtered on their
original value (`None`/`""`/`[]`), so keys whose value becomes an empty
container only after recursive pruning are kept, empty dict values are
always kept, and empty strings survive inside arrays. -/
theorem prune_no_null_members (t : JSON) : noNullMember (remove_nulls t) = true :=
  noNullMember_remove_nulls t

/-- C6 counterexample: `remove_nulls` is not idempotent: on
`{"a": [None]}` the first pass keeps `"a"` (its value `[None]` is not
`[]`) but empties the list, and only the second pass drops `"a"`. -/
theorem prune_idempotent_cex :
    remove_nulls (.obj [("a", .arr [.null])]) = .obj [("a", .arr [])] ∧
    remove_nulls (remove_nulls (.obj [("a", .arr [.null])])) ≠
      remove_nulls (.obj [("a", .arr [.null])]) := by
  refine ⟨rfl, ?_⟩
  intro h
  have h' : (JSON.obj [] : JSON) = .obj [("a", .arr [])] := h
  simp at h'

/-- C6 (amended): `remove_nulls` stabilizes after two passes:
`prune (prune (prune t)) = prune (prune t)` for every tree, while a single
pass need not be a fixpoint. -/
theorem prune_thrice_eq_twice (t : JSON) :
    remove_nulls (remove_nulls (remove_nulls t)) = remove_nulls (remove_nulls t) :=
  remove_nulls_of_good (remove_nulls (remove_nulls t))
    (good_remove_nulls (remove_nulls t) (noNullMember_remove_nulls t))

/-! ## Regex machinery for `TextProcessor` (src/utils.py:53-156)

Each source regex is embedded as a `Matcher` that returns, at a start
index, the candidate end indices in the engine's backtracking priority
order (greedy options first). A pattern matches at `i` exactly when the
list is non-empty, and the overall match is its head — this reproduces
Python `re`'s leftmost, greedy-with-backtracking semantics for the simple
patterns used here. All inputs of interest are ASCII. -/

abbrev Matcher := List Char → Nat → List Nat

/-- A single character of a class (e.g. `\d`, or dash-or-slash). -/
def mPred (p : Char → Bool) : Matcher := fun s i =>
  match s[i]? with
  | some c => if p c then [i + 1] else []
  | none => []

def mSeq (a b : Matcher) : Matcher := fun s i => (a s i).flatMap (b s)

/-- Alternation, in the pattern's declared order. -/
def mAlt (ms : List Matcher) : Matcher := fun s i => ms.flatMap (fun m => m s i)

/-- `(...)?` — greedy: try the group first, then skip it. -/
def mOpt (a : Matcher) : Matcher := fun s i => a s i ++ [i]

/-- A literal word, case-sensitive. -/
def mLit (w : List Char) : Matcher := fun s i =>
  if (s.drop i).take w.length = w then [i + w.length] else []

/-- A literal word under `re.IGNORECASE` (ASCII case folding). -/
def mLitCI (w : List Char) : Matcher := fun s i =>
  if ((s.drop i).take w.length).map Char.toLower = w.map Char.toLower then [i + w.length]
  else []

/-- `p{lo,hi}` over a character class (`hi = none` for unbounded), greedy:
longest first. -/
def mRep (p : Char → Bool) (lo : Nat) (hi : Option Nat) : Matcher := fun s i =>
  let r := ((s.drop i).takeWhile p).length
  let maxN := match hi with
    | some h => min r h
    | none => r
  (List.range (maxN + 1 - lo)).map (fun j => i + maxN - j)

/-- `(...)∗` over a unit that consumes at least one character, greedy. -/
def mStarFuel (a : Matcher) (s : List Char) : Nat → Nat → List Nat
  | 0, i => [i]
  | fuel + 1, i =>
    ((a s i).filter (fun j => i < j)).flatMap (fun j => mStarFuel a s fuel j) ++ [i]

def mStar (a : Matcher) : Matcher := fun s i => mStarFuel a s (s.length + 1) i

/-- One match attempt at an index: `some (emit, fullEnd)`. `emit` is what
`re.findall` reports — the full match for group-less patterns, the single
captured group for the `extract_amounts` patterns. -/
abbrev PatAt := List Char → Nat → Option (List Char × Nat)

def patOfMatcher (m : Matcher) : PatAt := fun s i =>
  (m s i).head?.map (fun e => ((s.drop i).take (e - i), e))

/-- `re.findall` scanning: try every index left to right, emit
non-overlapping matches, restart after each match (an empty match
advances by one, as in Python; the patterns here never match empty). -/
def scanPosAux (pat : PatAt) (s : List Char) : Nat → Nat → List (Nat × List Char)
  | 0, _ => []
  | fuel + 1, i =>
    if s.length + 1 ≤ i then []
    else
      match pat s i with
      | some (emit, e) =>
        if i < e then (i, emit) :: scanPosAux pat s fuel e
        else (i, emit) :: scanPosAux pat s fuel (i + 1)
      | none => scanPosAux pat s fuel (i + 1)

def scanPos (pat : PatAt) (s : List Char) : List (Nat × List Char) :=
  scanPosAux pat s (s.length + 2) 0

def findallStrs (m : Matcher) (s : List Char) : List String :=
  (scanPos (patOfMatcher m) s).map (fun p => String.mk p.2)

/-- Python `\s` (ASCII part). -/
def pyIsSpace (c : Char) : Bool :=
  c = ' ' || c = '\t' || c = '\n' || c = '\r' || c = '\x0b' || c = '\x0c'

def isDigitB (c : Char) : Bool := c.isDigit

def isAsciiLetter (c : Char) : Bool := ('a' ≤ c && c ≤ 'z') || ('A' ≤ c && c ≤ 'Z')

def wsPlus : Matcher := mRep pyIsSpace 1 none

def wsStar : Matcher := mRep pyIsSpace 0 none

/-! ### `TextProcessor.extract_dates` (src/utils.py:56-72), `re.IGNORECASE` -/

def sepDash : Matcher := mPred (fun c => c = '-' || c = '/')

/-- Month alternation; under `IGNORECASE` the trailing `[a-z]*` also
matches capitals. -/
def mMonth : Matcher :=
  mAlt ((["Jan", "Feb", "Mar", "Apr", "May", "Jun", "Jul", "Aug", "Sep", "Oct",
      "Nov", "Dec"].map String.data).map mLitCI)

def datePat1 : Matcher :=
  mSeq (mRep isDigitB 1 (some 2)) (mSeq sepDash
    (mSeq (mRep isDigitB 1 (some 2)) (mSeq sepDash (mRep isDigitB 2 (some 4)))))

def datePat2 : Matcher :=
  mSeq (mRep isDigitB 4 (some 4)) (mSeq sepDash
    (mSeq (mRep isDigitB 1 (some 2)) (mSeq sepDash (mRep isDigitB 1 (some 2)))))

def datePat3 : Matcher :=
  mSeq (mRep isDigitB 1 (some 2)) (mSeq wsPlus (mSeq mMonth
    (mSeq (mRep isAsciiLetter 0 none) (mSeq wsPlus (mRep isDigitB 2 (some 4))))))

def datePat4 : Matcher :=
  mSeq mMonth (mSeq (mRep isAsciiLetter 0 none) (mSeq wsPlus
    (mSeq (mRep isDigitB 1 (some 2)) (mSeq (mOpt (mLit [',']))
      (mSeq wsPlus (mRep isDigitB 2 (some 4)))))))

def extract_dates (text : String) : List String :=
  findallStrs datePat1 text.data ++ findallStrs datePat2 text.data ++
    findallStrs datePat3 text.data ++ findallStrs datePat4 text.data

/-! ### `TextProcessor.extract_times` (src/utils.py:74-89), `re.IGNORECASE` -/

def ampm : Matcher :=
  mAlt [mLitCI "AM".data, mLitCI "PM".data, mLitCI "am".data, mLitCI "pm".data]

def timePat1 : Matcher :=
  mSeq (mRep isDigitB 1 (some 2)) (mSeq (mLit [':'])
    (mSeq (mRep isDigitB 2 (some 2)) (mSeq wsStar (mOpt ampm))))

def timePat2 : Matcher := mSeq (mRep isDigitB 1 (some 2)) (mSeq wsStar ampm)

def timePat3 : Matcher :=
  mSeq (mLitCI "around".data) (mSeq wsPlus (mSeq (mRep isDigitB 1 (some 2))
    (mOpt (mSeq (mLit [':']) (mRep isDigitB 2 (some 2))))))

def extract_times (text : String) : List String :=
  findallStrs timePat1 text.data ++ findallStrs timePat2 text.data ++
    findallStrs timePat3 text.data

/-! ### `TextProcessor.extract_phone_numbers` (src/utils.py:91-106), no flags -/

def mobileCore : Matcher :=
  mSeq (mPred (fun c => '6' ≤ c && c ≤ '9')) (mRep isDigitB 9 (some 9))

def phonePat1 : Matcher := mobileCore

def phonePat2 : Matcher :=
  mSeq (mLit "+91".data) (mSeq (mOpt (mPred (fun c => c = '-' || pyIsSpace c))) mobileCore)

def phonePat3 : Matcher :=
  mSeq (mLit ['0']) (mSeq (mRep isDigitB 2 (some 4))
    (mSeq (mOpt (mPred (fun c => c = '-' || pyIsSpace c))) (mRep isDigitB 6 (some 8))))

def extract_phone_numbers (text : String) : List String :=
  findallStrs phonePat1 text.data ++ findallStrs phonePat2 text.data ++
    findallStrs phonePat3 text.data

/-! ### `TextProcessor.extract_amounts` (src/utils.py:108-132), `re.IGNORECASE` -/

/-- First success along a priority list (regex backtracking search). -/
def firstSome? {α β : Type} (l : List α) (f : α → Option β) : Option β :=
  (l.filterMap f).head?

/-- The captured group `\d+(?:,\d+)*(?:\.\d+)?`. -/
def numGroup : Matcher :=
  mSeq (mRep isDigitB 1 none)
    (mSeq (mStar (mSeq (mLit [',']) (mRep isDigitB 1 none)))
      (mOpt (mSeq (mLit ['.']) (mRep isDigitB 1 none))))

/-- `(?:Rs\.?|â‚¹)\s*` — the source file literally contains the
three-character mojibake sequence `â‚¹` for the rupee sign. -/
def currencyMark : Matcher :=
  mSeq (mAlt [mSeq (mLitCI "Rs".data) (mOpt (mLit ['.'])), mLitCI "â‚¹".data]) wsStar

/-- `\s*(?:lakh|lakhs|L)?` after the group in pattern 1. -/
def lakhTail : Matcher :=
  mSeq wsStar (mOpt (mAlt [mLitCI "lakh".data, mLitCI "lakhs".data, mLitCI "L".data]))

/-- Pattern 1 of `extract_amounts` at an index: emits the captured number
group; `lakhTail` never fails, so the first group end wins (greedy). -/
def amountPat1 : PatAt := fun s i =>
  firstSome? (currencyMark s i) (fun g0 =>
    firstSome? (numGroup s g0) (fun g1 =>
      ((lakhTail s g1).head?).map (fun e => ((s.drop g0).take (g1 - g0), e))))

/-- `\s*(?:rupees|Rs\.?|INR)` after the group in pattern 2. -/
def currencyTail : Matcher :=
  mSeq wsStar (mAlt [mLitCI "rupees".data,
    mSeq (mLitCI "Rs".data) (mOpt (mLit ['.'])), mLitCI "INR".data])

def amountPat2 : PatAt := fun s i =>
  firstSome? (numGroup s i) (fun g1 =>
    ((currencyTail s g1).head?).map (fun e => ((s.drop i).take (g1 - i), e)))

/-- Python `needle in hay` on strings. -/
def containsSub (hay needle : List Char) : Bool :=
  (List.range (hay.length + 1)).any (fun i => needle.isPrefixOf (hay.drop i))

/-- Python `str.find`: lowest index of the first occurrence. -/
def pyFind (hay needle : List Char) : Option Nat :=
  (List.range (hay.length + 1)).find? (fun i => needle.isPrefixOf (hay.drop i))

/-- `'lakh' in text[text.find(match):text.find(match)+20].lower()`
(src/utils.py:126): a 20-character window starting at the *first
occurrence* of the matched number string — the window includes the number
itself, and `find` may point at an earlier occurrence than the actual
match site. The group always occurs in `text` (it is a slice of it), so
`find` never misses; `getD 0` covers the impossible miss. -/
def lakhWindow (text g : List Char) : Bool :=
  let j := (pyFind text g).getD 0
  containsSub (((text.drop j).take 20).map Char.toLower) "lakh".data

def digitsToNat (cs : List Char) : Nat :=
  cs.foldl (fun a c => a * 10 + (c.toNat - 48)) 0

/-- `float(s)` on the cleaned group (shape `\d+(\.\d+)?`), as an exact
rational — exact for every literal these patterns can produce. -/
def parseDec (cs : List Char) : ℚ :=
  let ip := cs.takeWhile (fun c => !(c = '.'))
  match cs.dropWhile (fun c => !(c = '.')) with
  | [] => (digitsToNat ip : ℚ)
  | _ :: frac => (digitsToNat ip : ℚ) + (digitsToNat frac : ℚ) / ((10 : ℚ) ^ frac.length)

structure AmountRec where
  amount : ℚ
  currency : String
  deriving DecidableEq, Repr

/-- The per-match body of `extract_amounts` (src/utils.py:120-130): strip
`[,\s]`, parse as float (which always succeeds on this group shape, so
the `except ValueError: continue` is unreachable), multiply by 100000
when the window test sees "lakh". -/
def mkAmount (text g : List Char) : AmountRec :=
  let amount := parseDec (g.filter (fun c => !(c = ',' || pyIsSpace c)))
  ⟨if lakhWindow text g then amount * 100000 else amount, "INR"⟩

/-- `TextProcessor.extract_amounts` (src/utils.py:108-132): the two
patterns in order, each pattern's matches in text order, both tagged
`'INR'`. -/
def extract_amounts (text : String) : List AmountRec :=
  (scanPos amountPat1 text.data).map (fun p => mkAmount text.data p.2) ++
    (scanPos amountPat2 text.data).map (fun p => mkAmount text.data p.2)

/-! ### `TextProcessor.identify_offense_keywords` (src/utils.py:134-156) -/

def OFFENSE_KEYWORDS : List (String × List String) :=
  [("theft", ["steal", "stole", "stolen", "theft", "thief", "snatched", "snatch", "took away"]),
   ("robbery", ["rob", "robbed", "robbery", "loot", "looted", "held up", "gun point",
      "knife point"]),
   ("assault", ["beat", "beaten", "hit", "attack", "attacked", "assault", "hurt", "injured",
      "wound"]),
   ("fraud", ["fraud", "cheat", "cheated", "deceive", "scam", "fake", "forged", "forgery"]),
   ("extortion", ["extort", "extortion", "demand", "ransom", "threaten for money"]),
   ("harassment", ["harass", "harassment", "trouble", "disturb", "stalking", "eve teasing"]),
   ("intimidation", ["threaten", "threatened", "intimidate", "intimidation", "scare",
      "frightened"])]

/-- `identify_offense_keywords` (src/utils.py:134-156): a category is
reported when any of its keywords occurs as a *substring* of the
lowercased text; the inner loop breaks after the first hit, so each
category appears at most once and the accumulated list is duplicate-free.
The final Python `list(set(...))` only permutes that duplicate-free list
(hash order), so properties are stated up to membership and emptiness. -/
def identify_offense_keywords (text : String) : List String :=
  (OFFENSE_KEYWORDS.filter (fun cat =>
    cat.2.any (fun kw => containsSub (text.data.map Char.toLower) kw.data))).map
    (fun c => c.1)

/-! ## Scan-order lemmas and the extractor claims -/

theorem scanPosAux_start_ge (pat : PatAt) (s : List Char) :
    ∀ (fuel i : Nat), ∀ p ∈ scanPosAux pat s fuel i, i ≤ p.1
  | 0, i => by simp [scanPosAux]
  | fuel + 1, i => by
    intro p hp
    simp only [scanPosAux] at hp
    split at hp
    · simp at hp
    · split at hp
      · rename_i emit e heq
        split at hp
        · rcases List.mem_cons.mp hp with h | h
          · simp [h]
          · have := scanPosAux_start_ge pat s fuel e p h
            omega
        · rcases List.mem_cons.mp hp with h | h
          · simp [h]
          · have := scanPosAux_start_ge pat s fuel (i + 1) p h
            omega
      · have := scanPosAux_start_ge pat s fuel (i + 1) p hp
        omega

theorem scanPosAux_chain (pat : PatAt) (s : List Char) :
    ∀ (fuel i : Nat), List.Chain' (fun a b => a.1 < b.1) (scanPosAux pat s fuel i)
  | 0, i => by simp [scanPosAux]
  | fuel + 1, i => by
    simp only [scanPosAux]
    split
    · simp
    · split
      · rename_i emit e heq
        split
        · refine List.chain'_cons'.mpr ⟨?_, scanPosAux_chain pat s fuel e⟩
          intro y hy
          have hmem := List.mem_of_mem_head? hy
          have := scanPosAux_start_ge pat s fuel e y hmem
          omega
        · refine List.chain'_cons'.mpr ⟨?_, scanPosAux_chain pat s fuel (i + 1)⟩
          intro y hy
          have hmem := List.mem_of_mem_head? hy
          have := scanPosAux_start_ge pat s fuel (i + 1) y hmem
          omega
      · exact scanPosAux_chain pat s fuel (i + 1)

/-- Each pattern's `findall` emits its matches in strictly increasing
position order. -/
theorem scanPos_chain (pat : PatAt) (s : List Char) :
    List.Chain' (fun a b => a.1 < b.1) (scanPos pat s) :=
  scanPosAux_chain pat s (s.length + 2) 0

/-- The ordering the claim asserts: candidates sorted by the position of
their first occurrence in the text (Python `str.find`). -/
def orderedByFirstPos (text : List Char) (out : List String) : Prop :=
  List.Chain' (fun a b =>
    (pyFind text a.data).getD text.length ≤ (pyFind text b.data).getD text.length) out

/-- C5 counterexample: `extract_times("around 5 then 8:30")` returns
`["8:30", "around 5"]` — pattern-grouped, not ordered by first match
position (`"around 5"` occurs at 0, `"8:30"` at 14). -/
theorem extractor_order_cex :
    extract_times "around 5 then 8:30" = ["8:30", "around 5"] ∧
    pyFind "around 5 then 8:30".data "around 5".data = some 0 ∧
    pyFind "around 5 then 8:30".data "8:30".data = some 14 ∧
    ¬ orderedByFirstPos "around 5 then 8:30".data
        (extract_times "around 5 then 8:30") := by
  refine ⟨by decide, by decide, by decide, ?_⟩
  intro h
  rw [show extract_times "around 5 then 8:30" = ["8:30", "around 5"] from by decide]
    at h
  rcases List.chain'_cons'.mp h with ⟨hrel, -⟩
  have := hrel "around 5" rfl
  revert this
  decide

/-- C5 (amended): each extractor returns the concatenation, over its
patterns in their declared order, of that pattern's (non-deduplicated)
matches; within one pattern the matches appear in strictly increasing
position order, but candidates of a later pattern are appended after all
candidates of an earlier one regardless of position. -/
theorem extractor_grouped_by_pattern :
    (∀ text : String,
      extract_dates text =
        findallStrs datePat1 text.data ++ findallStrs datePat2 text.data ++
          findallStrs datePat3 text.data ++ findallStrs datePat4 text.data ∧
      extract_times text =
        findallStrs timePat1 text.data ++ findallStrs timePat2 text.data ++
          findallStrs timePat3 text.data ∧
      extract_phone_numbers text =
        findallStrs phonePat1 text.data ++ findallStrs phonePat2 text.data ++
          findallStrs phonePat3 text.data ∧
      extract_amounts text =
        (scanPos amountPat1 text.data).map (fun p => mkAmount text.data p.2) ++
          (scanPos amountPat2 text.data).map (fun p => mkAmount text.data p.2)) ∧
    (∀ (pat : PatAt) (s : List Char),
      List.Chain' (fun a b => a.1 < b.1) (scanPos pat s)) ∧
    extract_times "around 5 around 5" = ["around 5", "around 5"] :=
  ⟨fun _ => ⟨rfl, rfl, rfl, rfl⟩, fun pat s => scanPos_chain pat s, by decide⟩

/-- C4 counterexample: `extract_amounts("2 lakh rupees")` yields no
candidate at all (neither pattern matches a bare number followed by
"lakh"), contradicting the claimed amount of 200000. -/
theorem extract_amounts_lakh_cex : extract_amounts "2 lakh rupees" = [] := by
  decide

/-- C4 (amended): a parsed amount is multiplied by 100000 exactly when
the 20-character window of the text starting at the *first occurrence* of
the matched number string (window included) contains "lakh"
case-insensitively; `extract_amounts("Rs. 50,000")` yields the single
candidate 50000 INR, `extract_amounts("Rs. 2 lakh")` yields 200000 INR,
and `extract_amounts("2 lakh rupees")` yields nothing. -/
theorem extract_amounts_spec :
    extract_amounts "Rs. 50,000" = [⟨50000, "INR"⟩] ∧
    extract_amounts "Rs. 2 lakh" = [⟨200000, "INR"⟩] ∧
    extract_amounts "2 lakh rupees" = [] ∧
    (∀ (text g : List Char),
      (mkAmount text g).amount =
        parseDec (g.filter (fun c => !(c = ',' || pyIsSpace c))) *
          (if lakhWindow text g then 100000 else 1)) := by
  refine ⟨by decide, ?_, by decide, ?_⟩
  · have h1 : scanPos amountPat1 "Rs. 2 lakh".data = [(0, "2".data)] := by decide
    have h2 : scanPos amountPat2 "Rs. 2 lakh".data = [] := by decide
    have h3 : lakhWindow "Rs. 2 lakh".data "2".data = true := by decide
    have h4 : ("2".data.filter (fun c => !(c = ',' || pyIsSpace c))) = ['2'] := by decide
    have hd : List.dropWhile (fun c => !decide (c = '.')) ['2'] = [] := by decide
    have ht : List.takeWhile (fun c => !decide (c = '.')) ['2'] = ['2'] := by decide
    have hn : digitsToNat ['2'] = 2 := by decide
    simp only [extract_amounts, h1, h2, List.map_cons, List.map_nil, List.append_nil,
      mkAmount, h3, h4, if_true, parseDec, hd, ht, hn]
    norm_num
  · intro text g
    by_cases h : lakhWindow text g = true <;> simp [mkAmount, h]

/-- Python `str.split()` with no argument: whitespace-delimited words. -/
def pyWords (text : String) : List String :=
  ((text.data.splitOnP pyIsSpace).filter (fun w => !w.isEmpty)).map (fun cs => String.mk cs)

/-- C10: keyword matching is substring-based, not word-based: the text
"problem" contains no offense keyword as a standalone (whitespace-
delimited) word, yet the returned category list is non-empty, because
"rob" occurs inside "problem". -/
theorem offense_keywords_substring :
    identify_offense_keywords "problem" = ["robbery"] ∧
    (∀ cat ∈ OFFENSE_KEYWORDS, ∀ kw ∈ cat.2, ∀ w ∈ pyWords "problem", kw ≠ w) :=
  ⟨by decide, by decide⟩

/-! ## `DataFormatter.format_datetime_display` (src/utils.py:196-208) -/

/-- `%B`: full month names (C locale). -/
def monthName : Nat → String
  | 1 => "January"
  | 2 => "February"
  | 3 => "March"
  | 4 => "April"
  | 5 => "May"
  | 6 => "June"
  | 7 => "July"
  | 8 => "August"
  | 9 => "September"
  | 10 => "October"
  | 11 => "November"
  | 12 => "December"
  | _ => ""

/-- `%d`: zero-padded day of month. -/
def pad2 (n : Nat) : String := if n < 10 then "0" ++ toString n else toString n

def isLeapYear (y : Nat) : Bool := (y % 4 == 0 && !(y % 100 == 0)) || y % 400 == 0

def daysInMonth (y m : Nat) : Nat :=
  if m = 2 then (if isLeapYear y then 29 else 28)
  else if m = 4 || m = 6 || m = 9 || m = 11 then 30 else 31

def digitVal (c : Char) : Nat := c.toNat - 48

/-- The day part `\d{1,2}` followed by end of input (greedy; a leftover
character is "unconverted data" and fails `strptime`). -/
def parseDay : List Char → Option Nat
  | [a] => if isDigitB a then some (digitVal a) else none
  | [a, b] => if isDigitB a && isDigitB b then some (digitVal a * 10 + digitVal b) else none
  | _ => none

/-- The `%m-%d` tail: month `\d{1,2}` (greedy, backtracking to one digit
when no dash follows two digits), a dash, then the day. -/
def parseMD : List Char → Option (Nat × Nat)
  | a :: '-' :: rest =>
    if isDigitB a then (parseDay rest).map (fun d => (digitVal a, d)) else none
  | a :: b :: '-' :: rest =>
    if isDigitB a && isDigitB b then
      (parseDay rest).map (fun d => (digitVal a * 10 + digitVal b, d))
    else none
  | _ => none

/-- `datetime.strptime(s, '%Y-%m-%d')`: CPython matches `%Y` as exactly
four digits and `%m`/`%d` as one or two; the full string must be
consumed; `datetime` then rejects out-of-range fields (month 1-12, day
within the month, year at least `MINYEAR = 1`). -/
def parseYMD (cs : List Char) : Option (Nat × Nat × Nat) :=
  match cs with
  | y1 :: y2 :: y3 :: y4 :: '-' :: rest =>
    if isDigitB y1 && isDigitB y2 && isDigitB y3 && isDigitB y4 then
      match parseMD rest with
      | some (m, d) =>
        let y := ((digitVal y1 * 10 + digitVal y2) * 10 + digitVal y3) * 10 + digitVal y4
        if 1 ≤ y && 1 ≤ m && m ≤ 12 && 1 ≤ d && d ≤ daysInMonth y m then
          some (y, m, d)
        else none
      | none => none
    else none
  | _ => none

/-- Python `str.strip()` (ASCII whitespace). -/
def pyStrip (cs : List Char) : List Char :=
  ((cs.dropWhile pyIsSpace).reverse.dropWhile pyIsSpace).reverse

/-- `if time_str: formatted += f" at {time_str}"` — appended only for a
truthy (present and non-empty) time string. -/
def timeSuffix : Option String → String
  | some t => if t = "" then "" else " at " ++ t
  | none => ""

/-- `DataFormatter.format_datetime_display(date_str, time_str)`
(src/utils.py:196-208): on a parsed date, `strftime('%d %B %Y')` plus the
optional time suffix (`%Y` prints the year unpadded, as glibc does, which
equals `toString` for the 4-digit years `strptime` accepts); on a parse
failure, the fallback `f"{date_str} {time_str or ''}".strip()`. -/
def format_datetime_display (date : String) (time : Option String) : String :=
  match parseYMD date.data with
  | some (y, m, d) => pad2 d ++ " " ++ monthName m ++ " " ++ toString y ++ timeSuffix time
  | none => String.mk (pyStrip (date.data ++ ' ' :: (time.getD "").data))

/-- C8 counterexample: with the unparseable date `" bad"` and time
`"20:30"`, the fallback strips the leading whitespace, so the result is
not the raw concatenation `" bad 20:30"` unchanged. -/
theorem format_datetime_cex :
    format_datetime_display " bad" (some "20:30") = "bad 20:30" ∧
    (" bad" ++ " " ++ "20:30" : String) = " bad 20:30" ∧
    ("bad 20:30" : String) ≠ " bad 20:30" :=
  ⟨by decide, by decide, by decide⟩

/-- C8 (amended): `format_datetime_display` never raises; for every date
string accepted by `strptime('%Y-%m-%d')` it renders `"DD Month YYYY"`
(zero-padded day, long month name) with `" at <time>"` appended when a
non-empty time string is supplied, and for every date string that fails
to parse it returns the whitespace-stripped concatenation
`strip("<date> <time>")` — e.g.
`format_datetime_display("2025-01-15", "20:30") = "15 January 2025 at 20:30"`. -/
theorem format_datetime_spec :
    (∀ (date : String) (time : Option String) (y m d : Nat),
      parseYMD date.data = some (y, m, d) →
      format_datetime_display date time =
        pad2 d ++ " " ++ monthName m ++ " " ++ toString y ++ timeSuffix time) ∧
    (∀ (date : String) (time : Option String),
      parseYMD date.data = none →
      format_datetime_display date time =
        String.mk (pyStrip (date.data ++ ' ' :: (time.getD "").data))) ∧
    format_datetime_display "2025-01-15" (some "20:30") = "15 January 2025 at 20:30" := by
  refine ⟨?_, ?_, by decide⟩
  · intro date time y m d h
    simp [format_datetime_display, h]
  · intro date time h
    simp [format_datetime_display, h]

/-- Witness for the amended C8 on a concrete parsed date without a time. -/
theorem format_datetime_spec_witness :
    parseYMD ("1999-12-05").data = some (1999, 12, 5) ∧
    format_datetime_display "1999-12-05" none = "05 December 1999" := by
  refine ⟨by decide, ?_⟩
  have h := format_datetime_spec.1 "1999-12-05" none 1999 12 5 (by decide)
  exact h.trans (by decide)

end FIR
